import Mathlib

/-!
# Verification of the `SimpleChatModel` chat transcript module

This file is a shallow embedding, in Lean 4, of the chat transcript state
machine (`SimpleChatModel` and its helpers) together with the free helper
functions `getDisplayText`, `messageToSerializedChatInteraction`,
`toSerializedChatTranscript` and `getChatPanelTitle`.

Modelling conventions:
* TypeScript `undefined` / optional fields are modelled with `Option`.
* JavaScript string truthiness (`if (s)`) is modelled by `strTruthy`:
  a string is truthy iff it is present and non-empty.
* Methods that `throw` are modelled as functions into `Except String`;
  in the source every `throw` happens before any mutation, so an `.error`
  result faithfully corresponds to the original state being left untouched.
* External collaborators that are imported from other packages
  (`errorToChatError`, `isCodyIgnoredFile`, `createDisplayTextWithFileLinks`,
  `reformatBotMessageForChat`) are taken as explicit function parameters.
* Array operations: `at(-1)` is `List.getLast?`, `push` is `· ++ [x]`,
  `pop` is `List.dropLast` (with the popped element being the last one),
  `splice(i)` (for a non-negative index) is `List.take i`.
-/

/-- The two possible authors of a chat turn. -/
inductive Speaker where
  | human
  | assistant
deriving DecidableEq

/-- The string a speaker value interpolates to in a JS template literal. -/
def speakerName : Speaker → String
  | Speaker.human => "human"
  | Speaker.assistant => "assistant"

/-- Normalized error payload attached to an assistant turn.  The concrete
shape (produced by the external `errorToChatError`) is irrelevant to the
transcript model; we represent it by a string. -/
abbrev ChatError := String

/-- A JavaScript `Error` value handed to `addErrorAsBotMessage`; represented
by its message string. -/
abbrev JSError := String

/-- A context item attached to a human turn: a source artifact reference.
The real `ContextItem` type is external (from the shared package); the model
keeps the `uri` (used for ignore-filtering) and an opaque payload so that
"the whole item is kept" is meaningful. -/
structure ContextItem where
  uri : String
  content : Option String := none
deriving DecidableEq

/-- One message of the transcript (`ChatMessage` in the source). -/
structure ChatMessage where
  speaker : Speaker
  text : Option String := none
  displayText : Option String := none
  contextFiles : Option (List ContextItem) := none
  error : Option ChatError := none
deriving DecidableEq

/-- A repository descriptor (the `Repo` type from the repo-fetcher module;
external to the source under analysis, modelled as a flat record of its
serializable fields). -/
structure Repo where
  name : String
  id : String
deriving DecidableEq

/-- JS truthiness of an optional string: truthy iff present and non-empty. -/
def strTruthy : Option String → Bool
  | none => false
  | some s => !(s == "")

/-- `Array.prototype.findLastIndex`: index of the last element satisfying
`p`, or `-1` (a number, not `undefined`) when there is none. -/
def findLastIndexJS {α : Type} (p : α → Bool) : List α → Int
  | [] => -1
  | a :: rest =>
    if findLastIndexJS p rest ≥ 0 then findLastIndexJS p rest + 1
    else if p a then 0 else -1

/-- The chat transcript state (`SimpleChatModel` in the source).  The field
order mirrors the constructor parameter order. -/
structure SimpleChatModel where
  modelID : String
  messages : List ChatMessage := []
  sessionID : String
  customChatTitle : Option String := none
  selectedRepos : Option (List Repo) := none
deriving DecidableEq

namespace SimpleChatModel

/-- `isEmpty(): boolean`. -/
def isEmpty (m : SimpleChatModel) : Bool :=
  m.messages.isEmpty

/-- `setLastMessageContext(newContextUsed)`.  `isCodyIgnoredFile` is the
external ignore classifier, passed as a parameter. -/
def setLastMessageContext (isCodyIgnoredFile : String → Bool) (m : SimpleChatModel)
    (newContextUsed : List ContextItem) : Except String SimpleChatModel :=
  match m.messages.getLast? with
  | none => .error "no last message"
  | some lastMessage =>
    if lastMessage.speaker ≠ Speaker.human then
      .error "Cannot set new context used for bot message"
    else
      .ok { m with messages := m.messages.dropLast ++
        [{ lastMessage with
            contextFiles := some (newContextUsed.filter fun c => !isCodyIgnoredFile c.uri) }] }

/-- `addHumanMessage(message)`.  The payload (an `Omit<Message, 'speaker'>`)
is its `text` field. -/
def addHumanMessage (m : SimpleChatModel) (text : Option String) :
    Except String SimpleChatModel :=
  if (m.messages.getLast?).map ChatMessage.speaker = some Speaker.human then
    .error "Cannot add a user message after a user message"
  else
    .ok { m with messages := m.messages ++ [{ speaker := Speaker.human, text := text }] }

/-- `addBotMessage(message, displayText?)`. -/
def addBotMessage (m : SimpleChatModel) (text : Option String) (displayText : Option String) :
    Except String SimpleChatModel :=
  match m.messages.getLast? with
  | some lastMessage =>
    if lastMessage.speaker = Speaker.assistant then
      if strTruthy lastMessage.text then
        .error "Cannot add a bot message after a bot message"
      else
        .ok { m with messages := m.messages.dropLast ++
          [{ speaker := Speaker.assistant
             text := text
             displayText := displayText
             error := lastMessage.error }] }
    else
      .ok { m with messages := m.messages ++
        [{ speaker := Speaker.assistant
           text := text
           displayText := displayText
           error := none }] }
  | none =>
    .ok { m with messages := m.messages ++
      [{ speaker := Speaker.assistant
         text := text
         displayText := displayText
         error := none }] }

/-- `addErrorAsBotMessage(error)`.  `errorToChatError` is the external error
normalizer, passed as a parameter.  The source never throws here. -/
def addErrorAsBotMessage (errorToChatError : JSError → ChatError) (m : SimpleChatModel)
    (error : JSError) : SimpleChatModel :=
  match m.messages.getLast? with
  | some lastMessage =>
    if lastMessage.speaker = Speaker.assistant then
      { m with messages := m.messages.dropLast ++
        [{ lastMessage with
            speaker := Speaker.assistant
            error := some (errorToChatError error) }] }
    else
      { m with messages := m.messages ++
        [{ speaker := Speaker.assistant, error := some (errorToChatError error) }] }
  | none =>
    { m with messages := m.messages ++
      [{ speaker := Speaker.assistant, error := some (errorToChatError error) }] }

/-- `getLastHumanMessage()`: lodash `findLast` over `messages`. -/
def getLastHumanMessage (m : SimpleChatModel) : Option ChatMessage :=
  m.messages.reverse.find? fun message => message.speaker == Speaker.human

/-- `getLastSpeakerMessageIndex(speaker)`.  The implementation returns
`this.messages.findLastIndex(...)`, which is always a number (`-1` when no
turn matches); `some` marks that a number, not `undefined`, is returned. -/
def getLastSpeakerMessageIndex (m : SimpleChatModel) (speaker : Speaker) : Option Int :=
  some (findLastIndexJS (fun message => message.speaker == speaker) m.messages)

/-- `removeMessagesFromIndex(index, expectedSpeaker)`, for a non-negative
index (the documented domain).  Both throws precede the `splice`, so the
`Except` embedding is faithful: on `.error` the state is unchanged. -/
def removeMessagesFromIndex (m : SimpleChatModel) (index : Nat) (expectedSpeaker : Speaker) :
    Except String SimpleChatModel :=
  if m.isEmpty then
    .error "SimpleChatModel.removeMessagesFromIndex: not message to remove"
  else
    let speakerAtIndex := (m.messages[index]?).map ChatMessage.speaker
    if speakerAtIndex ≠ some expectedSpeaker then
      .error ("SimpleChatModel.removeMessagesFromIndex: expected " ++
        speakerName expectedSpeaker ++ ", got " ++
        (match speakerAtIndex with
         | some s => speakerName s
         | none => "undefined"))
    else
      .ok { m with messages := m.messages.take index }

/-- `getMessages()`. -/
def getMessages (m : SimpleChatModel) : List ChatMessage :=
  m.messages

/-- `getCustomChatTitle()`. -/
def getCustomChatTitle (m : SimpleChatModel) : Option String :=
  m.customChatTitle

/-- `setCustomChatTitle(title)`. -/
def setCustomChatTitle (m : SimpleChatModel) (title : String) : SimpleChatModel :=
  { m with customChatTitle := some title }

/-- `getSelectedRepos()`: value-level rendering of
`this.selectedRepos ? this.selectedRepos.map(r => ({...r})) : undefined`
(the per-element spread copies every field). -/
def getSelectedRepos (m : SimpleChatModel) : Option (List Repo) :=
  m.selectedRepos.map fun repos => repos.map fun r => { name := r.name, id := r.id }

/-- `setSelectedRepos(repos)`: value-level rendering of the ingress copy. -/
def setSelectedRepos (m : SimpleChatModel) (repos : Option (List Repo)) : SimpleChatModel :=
  { m with selectedRepos := repos.map fun rs => rs.map fun r => { name := r.name, id := r.id } }

end SimpleChatModel

/-! ## Display text resolution and the chat panel title helper -/

/-- `getDisplayText(message)`, parametrized by the two external renderers
(`createDisplayTextWithFileLinks` for human turns, `reformatBotMessageForChat`
for assistant turns). -/
def getDisplayText (createDisplayTextWithFileLinks : String → List ContextItem → String)
    (reformatBotMessageForChat : String → String → String)
    (message : ChatMessage) : Option String :=
  if strTruthy message.displayText then message.displayText
  else if message.speaker = Speaker.human ∧ strTruthy message.text = true then
    some (createDisplayTextWithFileLinks (message.text.getD "") (message.contextFiles.getD []))
  else if message.speaker = Speaker.assistant ∧ strTruthy message.text = true then
    some (reformatBotMessageForChat (message.text.getD "") "")
  else message.text

/-- Characters matched by `.` in a JS regex without the `s` flag
(everything except the four line terminators). -/
def isRegexDot (c : Char) : Bool :=
  !(c == '\n') && !(c == '\r') && !(c.val == 0x2028) && !(c.val == 0x2029)

/-- Matcher for the tail `(.+?)\)` of the markdown-link regex: the shortest
non-empty run of `.`-matchable characters followed by a literal `)`.
Returns the captured group and the remainder after the `)`. -/
def matchG2 : List Char → Option (List Char × List Char)
  | [] => none
  | c :: cs =>
    if isRegexDot c = false then none
    else if cs.head? = some ')' then some ([c], cs.tail)
    else (matchG2 cs).map fun p => (c :: p.1, p.2)

/-- Matcher for the part `(.+?)_]\((.+?)\)` of the markdown-link regex that
follows the literal `[_`, with non-greedy groups: the first group grows only
when the shorter alternative cannot complete a match (backtracking).
Returns both captured groups and the remainder after the match. -/
def matchAfterBracket : List Char → Option (List Char × List Char × List Char)
  | [] => none
  | c :: cs =>
    if isRegexDot c = false then none
    else
      match (if cs.take 3 = ['_', ']', '('] then matchG2 (cs.drop 3) else none) with
      | some (g2, rest) => some ([c], g2, rest)
      | none => (matchAfterBracket cs).map fun p => (c :: p.1, p.2.1, p.2.2)

theorem matchG2_rest_length (l : List Char) :
    ∀ g2 rest, matchG2 l = some (g2, rest) → rest.length < l.length := by
  induction l with
  | nil => intro g2 rest h; simp [matchG2] at h
  | cons c cs ih =>
    intro g2 rest h
    simp only [matchG2] at h
    split at h
    · simp at h
    · split at h
      · simp only [Option.some.injEq, Prod.mk.injEq] at h
        obtain ⟨-, h2⟩ := h
        subst h2
        cases cs with
        | nil => simp
        | cons c2 cs2 => simp only [List.tail_cons, List.length_cons]; omega
      · rcases hm : matchG2 cs with - | ⟨g2x, restx⟩
        · rw [hm] at h; simp at h
        · rw [hm] at h
          simp only [Option.map_some', Option.some.injEq, Prod.mk.injEq] at h
          obtain ⟨-, h2⟩ := h
          subst h2
          exact Nat.lt_succ_of_lt (ih g2x restx hm)

theorem matchAfterBracket_rest_length (l : List Char) :
    ∀ g1 g2 rest, matchAfterBracket l = some (g1, g2, rest) → rest.length < l.length := by
  induction l with
  | nil => intro g1 g2 rest h; simp [matchAfterBracket] at h
  | cons c cs ih =>
    intro g1 g2 rest h
    simp only [matchAfterBracket] at h
    split at h
    · simp at h
    · split at h
      · next g2x restx hm =>
        split at hm
        · simp only [Option.some.injEq, Prod.mk.injEq] at h
          obtain ⟨-, -, h3⟩ := h
          subst h3
          have hlt := matchG2_rest_length (cs.drop 3) g2x restx hm
          have hd : (cs.drop 3).length ≤ cs.length := by simp
          simp only [List.length_cons]
          omega
        · exact absurd hm (by simp)
      · next hm =>
        rcases hb : matchAfterBracket cs with - | ⟨g1x, g2x, restx⟩
        · rw [hb] at h; simp at h
        · rw [hb] at h
          simp only [Option.map_some', Option.some.injEq, Prod.mk.injEq] at h
          obtain ⟨-, -, h3⟩ := h
          subst h3
          exact Nat.lt_succ_of_lt (ih g1x g2x restx hb)

/-- `String.replaceAll` with the regex `/\[_(.+?)_]\((.+?)\)/g` and the
replacement `$1`: scans left to right, replaces each non-overlapping match
by its first captured group, and resumes after the match. -/
def replaceLinks : List Char → List Char
  | [] => []
  | c :: cs =>
    if c = '[' ∧ cs.head? = some '_' then
      match hm : matchAfterBracket cs.tail with
      | some (g1, _, rest) => g1 ++ replaceLinks rest
      | none => c :: replaceLinks cs
    else c :: replaceLinks cs
termination_by l => l.length
decreasing_by
  · have hlt := matchAfterBracket_rest_length cs.tail _ _ _ hm
    have hd : cs.tail.length ≤ cs.length := by cases cs <;> simp
    simp only [List.length_cons]
    omega
  · simp
  · simp

/-- Whitespace for the purposes of JS `String.prototype.trim`. -/
def isJSWhitespace (c : Char) : Bool :=
  c == ' ' || c == '\t' || c == '\n' || c == '\r' ||
  c.val == 0x0B || c.val == 0x0C || c.val == 0xA0 ||
  c.val == 0x2028 || c.val == 0x2029 || c.val == 0xFEFF

/-- JS `String.prototype.trim`. -/
def jsTrim (s : String) : String :=
  String.mk (((s.data.dropWhile isJSWhitespace).reverse.dropWhile isJSWhitespace).reverse)

/-- `getChatPanelTitle(lastDisplayText?, truncateTitle = true)` from the
chat-helpers source file.  String lengths and slices are counted in
characters. -/
def getChatPanelTitle (lastDisplayText : Option String) (truncateTitle : Bool := true) : String :=
  match lastDisplayText with
  | none => "New Chat"
  | some s =>
    if s = "" then "New Chat"
    else
      let stripped := jsTrim (String.mk (replaceLinks s.data))
      if truncateTitle = false then stripped
      else if stripped.length > 25 then jsTrim (String.mk (stripped.data.take 25)) ++ "..."
      else stripped

namespace SimpleChatModel

/-- `getChatTitle()`. -/
def getChatTitle (createDisplayTextWithFileLinks : String → List ContextItem → String)
    (reformatBotMessageForChat : String → String → String)
    (m : SimpleChatModel) : String :=
  if strTruthy m.customChatTitle then m.customChatTitle.getD ""
  else
    let text := (m.getLastHumanMessage).bind
      (getDisplayText createDisplayTextWithFileLinks reformatBotMessageForChat)
    if strTruthy text then getChatPanelTitle text true
    else "New Chat"

end SimpleChatModel

/-! ## Serializer -/

/-- One serialized interaction: a human turn paired with the assistant turn
answering it, or `none` (JSON `null`) when no answer exists yet. -/
structure SerializedChatInteraction where
  humanMessage : ChatMessage
  assistantMessage : Option ChatMessage
deriving DecidableEq

/-- The persisted transcript record. -/
structure SerializedChatTranscript where
  id : String
  chatModel : String
  chatTitle : Option String
  lastInteractionTimestamp : String
  interactions : List SerializedChatInteraction
  enhancedContext : Option (List Repo) := none
deriving DecidableEq

/-- `messageToSerializedChatInteraction(humanMessage, assistantMessage?)`.
The source contains two back-to-back checks of the same human-speaker
condition; the second is unreachable and both are kept. -/
def messageToSerializedChatInteraction
    (createDisplayTextWithFileLinks : String → List ContextItem → String)
    (reformatBotMessageForChat : String → String → String)
    (humanMessage : ChatMessage) (assistantMessage : Option ChatMessage) :
    Except String SerializedChatInteraction :=
  if humanMessage.speaker ≠ Speaker.human then
    .error "expected human message, got bot"
  else if humanMessage.speaker ≠ Speaker.human then
    .error ("expected human message to have speaker == human, got " ++
      speakerName humanMessage.speaker)
  else
    match assistantMessage with
    | some a =>
      if a.speaker ≠ Speaker.assistant then
        .error ("expected bot message to have speaker == assistant, got " ++
          speakerName a.speaker)
      else
        .ok { humanMessage := { humanMessage with
                displayText := getDisplayText createDisplayTextWithFileLinks
                  reformatBotMessageForChat humanMessage }
              assistantMessage := some { a with
                displayText := getDisplayText createDisplayTextWithFileLinks
                  reformatBotMessageForChat a } }
    | none =>
      .ok { humanMessage := { humanMessage with
              displayText := getDisplayText createDisplayTextWithFileLinks
                reformatBotMessageForChat humanMessage }
            assistantMessage := none }

/-- The pairing loop of `toSerializedChatTranscript`: walks the message list
two at a time (`i += 2`), pairing `messages[i]` with `messages.at(i + 1)`. -/
def serializeInteractions
    (createDisplayTextWithFileLinks : String → List ContextItem → String)
    (reformatBotMessageForChat : String → String → String) :
    List ChatMessage → Except String (List SerializedChatInteraction)
  | [] => .ok []
  | [humanMessage] => do
    let i ← messageToSerializedChatInteraction createDisplayTextWithFileLinks
      reformatBotMessageForChat humanMessage none
    .ok [i]
  | humanMessage :: assistantMessage :: rest => do
    let i ← messageToSerializedChatInteraction createDisplayTextWithFileLinks
      reformatBotMessageForChat humanMessage (some assistantMessage)
    let is ← serializeInteractions createDisplayTextWithFileLinks
      reformatBotMessageForChat rest
    .ok (i :: is)

namespace SimpleChatModel

/-- `toSerializedChatTranscript()`. -/
def toSerializedChatTranscript
    (createDisplayTextWithFileLinks : String → List ContextItem → String)
    (reformatBotMessageForChat : String → String → String)
    (m : SimpleChatModel) : Except String SerializedChatTranscript := do
  let interactions ← serializeInteractions createDisplayTextWithFileLinks
    reformatBotMessageForChat m.messages
  .ok { id := m.sessionID
        chatModel := m.modelID
        chatTitle := m.getCustomChatTitle
        lastInteractionTimestamp := m.sessionID
        interactions := interactions
        enhancedContext := m.selectedRepos.map fun repos =>
          repos.map fun r => { name := r.name, id := r.id } }

end SimpleChatModel

/-! ## The alternation/pairing invariant (spec invariants I1/I2) -/

/-- The speaker of the turn at index `i`, if any. -/
def speakerAt (msgs : List ChatMessage) (i : Nat) : Option Speaker :=
  (msgs[i]?).map ChatMessage.speaker

/-- The speaker the pairing invariant I2 demands at index `i`: human at the
even indices, assistant at the odd ones. -/
def expectedSpeakerAt (i : Nat) : Speaker :=
  if i % 2 = 0 then Speaker.human else Speaker.assistant

/-- Invariants I1/I2: every turn at an even index is human and every turn at
an odd index is assistant. -/
def pairingInv (msgs : List ChatMessage) : Prop :=
  ∀ i, i < msgs.length → speakerAt msgs i = some (expectedSpeakerAt i)

instance pairingInvDecidable (msgs : List ChatMessage) : Decidable (pairingInv msgs) := by
  unfold pairingInv
  exact Nat.decidableBallLT _ _

theorem expectedSpeakerAt_eq_human (i : Nat) :
    expectedSpeakerAt i = Speaker.human ↔ i % 2 = 0 := by
  unfold expectedSpeakerAt
  split <;> simp_all

theorem expectedSpeakerAt_eq_assistant (i : Nat) :
    expectedSpeakerAt i = Speaker.assistant ↔ i % 2 = 1 := by
  unfold expectedSpeakerAt
  split <;> simp_all

theorem speakerAt_append_left (msgs : List ChatMessage) (x : ChatMessage) (i : Nat)
    (h : i < msgs.length) : speakerAt (msgs ++ [x]) i = speakerAt msgs i := by
  unfold speakerAt
  rw [List.getElem?_append_left h]

theorem speakerAt_concat_length (msgs : List ChatMessage) (x : ChatMessage) :
    speakerAt (msgs ++ [x]) msgs.length = some x.speaker := by
  unfold speakerAt
  rw [List.getElem?_concat_length]
  rfl

theorem pairingInv_append (msgs : List ChatMessage) (x : ChatMessage) :
    pairingInv (msgs ++ [x]) ↔ pairingInv msgs ∧ x.speaker = expectedSpeakerAt msgs.length := by
  constructor
  · intro h
    refine ⟨fun i hi => ?_, ?_⟩
    · have hx := h i (by simp only [List.length_append, List.length_cons, List.length_nil]; omega)
      rwa [speakerAt_append_left _ _ _ hi] at hx
    · have hx := h msgs.length (by simp)
      rw [speakerAt_concat_length] at hx
      exact Option.some.inj hx
  · rintro ⟨h1, h2⟩ i hi
    simp only [List.length_append, List.length_cons, List.length_nil] at hi
    rcases Nat.lt_or_ge i msgs.length with hlt | hge
    · rw [speakerAt_append_left _ _ _ hlt]
      exact h1 i hlt
    · have hieq : i = msgs.length := by omega
      subst hieq
      rw [speakerAt_concat_length, h2]

theorem pairingInv_take (msgs : List ChatMessage) (n : Nat) (h : pairingInv msgs) :
    pairingInv (msgs.take n) := by
  intro i hi
  simp only [List.length_take] at hi
  have hin : i < n := by omega
  have him : i < msgs.length := by omega
  unfold speakerAt
  rw [List.getElem?_take_of_lt hin]
  exact h i him

theorem pairingInv_getLast (msgs : List ChatMessage) (last : ChatMessage)
    (h0 : msgs.getLast? = some last) (hinv : pairingInv msgs) :
    last.speaker = expectedSpeakerAt (msgs.length - 1) := by
  have hne : msgs ≠ [] := by
    intro hcon
    rw [hcon] at h0
    simp at h0
  have hlen : 0 < msgs.length := List.length_pos.mpr hne
  have hx := hinv (msgs.length - 1) (by omega)
  rw [List.getLast?_eq_getElem?] at h0
  unfold speakerAt at hx
  rw [h0] at hx
  simpa using hx

theorem pairingInv_push (msgs : List ChatMessage) (y : ChatMessage)
    (hinv : pairingInv msgs) (hy : y.speaker = expectedSpeakerAt msgs.length) :
    pairingInv (msgs ++ [y]) :=
  (pairingInv_append _ _).mpr ⟨hinv, hy⟩

theorem pairingInv_popPush (msgs : List ChatMessage) (y : ChatMessage) (hne : msgs ≠ [])
    (hinv : pairingInv msgs) (hy : y.speaker = expectedSpeakerAt (msgs.length - 1)) :
    pairingInv (msgs.dropLast ++ [y]) := by
  rw [List.dropLast_eq_take]
  apply (pairingInv_append _ _).mpr
  refine ⟨pairingInv_take _ _ hinv, ?_⟩
  have hlen : 0 < msgs.length := List.length_pos.mpr hne
  have htk : (msgs.take (msgs.length - 1)).length = msgs.length - 1 := by
    simp only [List.length_take]
    omega
  rw [htk, hy]

/-! ## Sequences of mutating calls (for the alternation property) -/

/-- One call of the mutation interface exercised by the alternation
property: `addHumanMessage` or `addBotMessage` with the given payloads. -/
inductive ChatOp where
  | human (text : Option String)
  | bot (text : Option String) (displayText : Option String)
deriving DecidableEq

/-- Whether the call is an `addHumanMessage` call. -/
def isHumanOp : ChatOp → Bool
  | ChatOp.human _ => true
  | ChatOp.bot _ _ => false

/-- Perform one call on the transcript. -/
def applyOp (m : SimpleChatModel) : ChatOp → Except String SimpleChatModel
  | ChatOp.human text => m.addHumanMessage text
  | ChatOp.bot text displayText => m.addBotMessage text displayText

/-- Perform a sequence of calls, stopping at the first raised error. -/
def runOps (m : SimpleChatModel) : List ChatOp → Except String SimpleChatModel
  | [] => .ok m
  | op :: ops =>
    match applyOp m op with
    | .ok m2 => runOps m2 ops
    | .error e => .error e

/-! ## Heap model for repo-descriptor isolation (spec invariant I5)

JS objects have reference semantics, so the defensive-copy behaviour of
`setSelectedRepos`/`getSelectedRepos` is stated over an explicit heap of
`Repo` objects: a reference is a `Nat`, a heap maps references to field
values, and `{ ...r }` allocates a fresh reference holding a copy of the
current field values of `r`. -/

/-- A heap of mutable `Repo` objects, with an allocation counter: every
allocated reference is `< next`. -/
structure RepoHeap where
  data : Nat → Repo
  next : Nat

/-- The field values a caller observes behind a list of references. -/
def readRepos (h : RepoHeap) (refs : List Nat) : List Repo :=
  refs.map h.data

/-- `repos.map(r => ({ ...r }))` over the heap: allocates one fresh object
per element, left to right, copying the source object's current field
values, and returns the references to the copies. -/
def copyRepos (h : RepoHeap) : List Nat → RepoHeap × List Nat
  | [] => (h, [])
  | r :: rs =>
    let h1 : RepoHeap := ⟨Function.update h.data h.next (h.data r), h.next + 1⟩
    ((copyRepos h1 rs).1, h.next :: (copyRepos h1 rs).2)

/-- `setSelectedRepos(repos)` on the heap: stores references to fresh
copies (or `undefined`). -/
def setSelectedReposRef (h : RepoHeap) (repos : Option (List Nat)) :
    RepoHeap × Option (List Nat) :=
  match repos with
  | some rs => ((copyRepos h rs).1, some (copyRepos h rs).2)
  | none => (h, none)

/-- `getSelectedRepos()` on the heap: returns references to fresh copies of
the stored objects (or `undefined`). -/
def getSelectedReposRef (h : RepoHeap) (stored : Option (List Nat)) :
    RepoHeap × Option (List Nat) :=
  match stored with
  | some rs => ((copyRepos h rs).1, some (copyRepos h rs).2)
  | none => (h, none)

theorem copyRepos_next (rs : List Nat) : ∀ h : RepoHeap,
    (copyRepos h rs).1.next = h.next + rs.length := by
  induction rs with
  | nil => intro h; simp [copyRepos]
  | cons r rs ih =>
    intro h
    simp only [copyRepos, List.length_cons]
    rw [ih]
    simp only []
    omega

theorem copyRepos_frame (rs : List Nat) : ∀ (h : RepoHeap) (a : Nat), a < h.next →
    (copyRepos h rs).1.data a = h.data a := by
  induction rs with
  | nil => intro h a _; simp [copyRepos]
  | cons r rs ih =>
    intro h a ha
    simp only [copyRepos]
    rw [ih _ _ (by simp only []; omega)]
    simp only []
    rw [Function.update_apply]
    have : ¬ a = h.next := by omega
    simp [this]

theorem copyRepos_fresh (rs : List Nat) : ∀ (h : RepoHeap) (r : Nat),
    r ∈ (copyRepos h rs).2 → h.next ≤ r ∧ r < h.next + rs.length := by
  induction rs with
  | nil => intro h r hr; simp [copyRepos] at hr
  | cons x rs ih =>
    intro h r hr
    simp only [copyRepos, List.mem_cons] at hr
    rcases hr with hr | hr
    · subst hr
      simp only [List.length_cons]
      omega
    · have := ih _ _ hr
      simp only [List.length_cons]
      simp only [] at this
      omega

theorem copyRepos_read (rs : List Nat) : ∀ h : RepoHeap, (∀ r ∈ rs, r < h.next) →
    readRepos (copyRepos h rs).1 (copyRepos h rs).2 = readRepos h rs := by
  induction rs with
  | nil => intro h _; simp [copyRepos, readRepos]
  | cons r rs ih =>
    intro h hwf
    have hr : r < h.next := hwf r (List.mem_cons_self r rs)
    simp only [copyRepos, readRepos, List.map_cons]
    have hhead : (copyRepos (⟨Function.update h.data h.next (h.data r), h.next + 1⟩ :
        RepoHeap) rs).1.data h.next = h.data r := by
      rw [copyRepos_frame rs _ h.next (by simp only []; omega)]
      simp only []
      rw [Function.update_apply]
      simp
    have hwf1 : ∀ x ∈ rs, x < (⟨Function.update h.data h.next (h.data r), h.next + 1⟩ :
        RepoHeap).next := by
      intro x hx
      have := hwf x (List.mem_cons_of_mem _ hx)
      simp only []
      omega
    have htail := ih _ hwf1
    unfold readRepos at htail
    rw [hhead, htail]
    have hmap : List.map (⟨Function.update h.data h.next (h.data r), h.next + 1⟩ :
        RepoHeap).data rs = List.map h.data rs := by
      apply List.map_congr_left
      intro x hx
      have hxlt := hwf x (List.mem_cons_of_mem _ hx)
      simp only []
      rw [Function.update_apply]
      have : ¬ x = h.next := by omega
      simp [this]
    rw [hmap]

/-! ## Analysis of the mutating operations -/

theorem addHumanMessage_ok (m : SimpleChatModel) (text : Option String) (m2 : SimpleChatModel)
    (h : m.addHumanMessage text = .ok m2) :
    (m.messages.getLast?).map ChatMessage.speaker ≠ some Speaker.human ∧
    m2.messages = m.messages ++ [{ speaker := Speaker.human, text := text }] := by
  unfold SimpleChatModel.addHumanMessage at h
  split at h
  · simp at h
  · next hcond =>
    injection h with h2
    subst h2
    exact ⟨hcond, rfl⟩

theorem addBotMessage_ok_cases (m : SimpleChatModel) (text displayText : Option String)
    (m2 : SimpleChatModel) (h : m.addBotMessage text displayText = .ok m2) :
    (∃ lastMessage, m.messages.getLast? = some lastMessage ∧
        lastMessage.speaker = Speaker.assistant ∧ strTruthy lastMessage.text = false ∧
        m2.messages = m.messages.dropLast ++
          [{ speaker := Speaker.assistant, text := text, displayText := displayText,
             error := lastMessage.error }]) ∨
    ((m.messages.getLast?).map ChatMessage.speaker ≠ some Speaker.assistant ∧
        m2.messages = m.messages ++
          [{ speaker := Speaker.assistant, text := text, displayText := displayText,
             error := none }]) := by
  unfold SimpleChatModel.addBotMessage at h
  rcases hgl : m.messages.getLast? with - | lastMessage
  · rw [hgl] at h
    simp only [] at h
    injection h with h2
    subst h2
    exact Or.inr ⟨by simp, rfl⟩
  · rw [hgl] at h
    simp only [] at h
    split at h
    · next hA =>
      split at h
      · simp at h
      · next hT =>
        injection h with h2
        subst h2
        exact Or.inl ⟨lastMessage, rfl, hA, by simpa using hT, rfl⟩
    · next hA =>
      injection h with h2
      subst h2
      exact Or.inr ⟨by simpa using hA, rfl⟩

theorem pairingInv_singleton (y : ChatMessage) (hy : y.speaker = Speaker.human) :
    pairingInv [y] := by
  intro i hi
  simp only [List.length_cons, List.length_nil] at hi
  have : i = 0 := by omega
  subst this
  unfold speakerAt expectedSpeakerAt
  simp [hy]

theorem applyOp_preserves (m : SimpleChatModel) (op : ChatOp) (m2 : SimpleChatModel)
    (hinv : pairingInv m.messages) (hne : m.messages ≠ [])
    (h : applyOp m op = .ok m2) :
    pairingInv m2.messages ∧ m2.messages ≠ [] := by
  have hlen : 0 < m.messages.length := List.length_pos.mpr hne
  cases op with
  | human text =>
    obtain ⟨hlast, hmsg⟩ := addHumanMessage_ok _ _ _ h
    rcases hgl : m.messages.getLast? with - | last
    · exact absurd (List.getLast?_eq_none_iff.mp hgl) hne
    · have hsp := pairingInv_getLast _ _ hgl hinv
      have hlast2 : last.speaker ≠ Speaker.human := by
        rw [hgl] at hlast
        simpa using hlast
      have hassist : last.speaker = Speaker.assistant := by
        rcases hx : last.speaker
        · exact absurd hx hlast2
        · rfl
      have hpar : (m.messages.length - 1) % 2 = 1 :=
        (expectedSpeakerAt_eq_assistant _).mp (by rw [← hsp, hassist])
      have hexp : expectedSpeakerAt m.messages.length = Speaker.human :=
        (expectedSpeakerAt_eq_human _).mpr (by omega)
      rw [hmsg]
      exact ⟨pairingInv_push _ _ hinv hexp.symm, by simp⟩
  | bot text displayText =>
    rcases addBotMessage_ok_cases _ _ _ _ h with ⟨last, hgl, hassist, -, hmsg⟩ | ⟨hlast, hmsg⟩
    · have hsp := pairingInv_getLast _ _ hgl hinv
      rw [hmsg]
      refine ⟨pairingInv_popPush _ _ hne hinv ?_, by simp⟩
      show Speaker.assistant = expectedSpeakerAt (m.messages.length - 1)
      rw [← hsp, hassist]
    · rcases hgl : m.messages.getLast? with - | last
      · exact absurd (List.getLast?_eq_none_iff.mp hgl) hne
      · have hsp := pairingInv_getLast _ _ hgl hinv
        have hlast2 : last.speaker ≠ Speaker.assistant := by
          rw [hgl] at hlast
          simpa using hlast
        have hhum : last.speaker = Speaker.human := by
          rcases hx : last.speaker
          · rfl
          · exact absurd hx hlast2
        have hpar : (m.messages.length - 1) % 2 = 0 :=
          (expectedSpeakerAt_eq_human _).mp (by rw [← hsp, hhum])
        have hexp : expectedSpeakerAt m.messages.length = Speaker.assistant :=
          (expectedSpeakerAt_eq_assistant _).mpr (by omega)
        rw [hmsg]
        exact ⟨pairingInv_push _ _ hinv hexp.symm, by simp⟩

theorem runOps_preserves (ops : List ChatOp) : ∀ m m2 : SimpleChatModel,
    pairingInv m.messages → m.messages ≠ [] → runOps m ops = .ok m2 →
    pairingInv m2.messages ∧ m2.messages ≠ [] := by
  induction ops with
  | nil =>
    intro m m2 hinv hne h
    unfold runOps at h
    injection h with h2
    subst h2
    exact ⟨hinv, hne⟩
  | cons op ops ih =>
    intro m m2 hinv hne h
    unfold runOps at h
    rcases ha : applyOp m op with e | m1
    · rw [ha] at h
      simp at h
    · rw [ha] at h
      simp only [] at h
      obtain ⟨hinv1, hne1⟩ := applyOp_preserves _ _ _ hinv hne ha
      exact ih _ _ hinv1 hne1 h

/-! ## Analysis of `findLastIndexJS` -/

theorem findLastIndexJS_ge_neg_one {α : Type} (p : α → Bool) (l : List α) :
    -1 ≤ findLastIndexJS p l := by
  induction l with
  | nil => simp [findLastIndexJS]
  | cons a as ih =>
    simp only [findLastIndexJS]
    split
    · omega
    · split <;> omega

theorem findLastIndexJS_eq_neg_one_iff {α : Type} (p : α → Bool) (l : List α) :
    findLastIndexJS p l = -1 ↔ ∀ x ∈ l, p x = false := by
  induction l with
  | nil => simp [findLastIndexJS]
  | cons a as ih =>
    simp only [findLastIndexJS]
    constructor
    · intro h x hx
      by_cases hr : findLastIndexJS p as ≥ 0
      · rw [if_pos hr] at h
        omega
      · rw [if_neg hr] at h
        by_cases hpa : p a = true
        · rw [if_pos hpa] at h
          omega
        · rcases List.mem_cons.mp hx with hx0 | hmem
          · subst hx0
            simpa using hpa
          · have has : findLastIndexJS p as = -1 := by
              have := findLastIndexJS_ge_neg_one p as
              omega
            exact ih.mp has x hmem
    · intro h
      have has : findLastIndexJS p as = -1 :=
        ih.mpr fun x hx => h x (List.mem_cons_of_mem _ hx)
      rw [has]
      have hpa : p a = false := h a (List.mem_cons_self a as)
      rw [if_neg (by omega), if_neg (by simp [hpa])]

theorem findLastIndexJS_spec {α : Type} (p : α → Bool) (l : List α) : ∀ j : Nat,
    (∃ x, l[j]? = some x ∧ p x = true) →
    (∀ k, j < k → ∀ x, l[k]? = some x → p x = false) →
    findLastIndexJS p l = (j : Int) := by
  induction l with
  | nil =>
    intro j hj _
    obtain ⟨x, hx, -⟩ := hj
    simp at hx
  | cons a as ih =>
    intro j hj hmax
    match j with
    | 0 =>
      obtain ⟨x, hx, hpx⟩ := hj
      simp only [List.getElem?_cons_zero, Option.some.injEq] at hx
      subst hx
      have has : findLastIndexJS p as = -1 := by
        rw [findLastIndexJS_eq_neg_one_iff]
        intro y hy
        obtain ⟨k, hk⟩ := List.mem_iff_getElem?.mp hy
        exact hmax (k + 1) (by omega) y (by simpa using hk)
      simp only [findLastIndexJS]
      rw [has, if_neg (by omega), if_pos hpx]
      simp
    | j + 1 =>
      obtain ⟨x, hx, hpx⟩ := hj
      rw [List.getElem?_cons_succ] at hx
      have has : findLastIndexJS p as = (j : Int) := by
        apply ih j ⟨x, hx, hpx⟩
        intro k hk y hy
        exact hmax (k + 1) (by omega) y (by simpa using hy)
      simp only [findLastIndexJS]
      rw [has, if_pos (by omega)]
      push_cast
      ring

/-! ## Concrete transcripts used in closed instances -/

/-- An empty transcript. -/
def exampleModelEmpty : SimpleChatModel :=
  { modelID := "model", sessionID := "sess" }

/-- A transcript with a single human turn. -/
def exampleModelH : SimpleChatModel :=
  { modelID := "model"
    sessionID := "sess"
    messages := [{ speaker := Speaker.human, text := some "hi" }] }

/-- A transcript with a human turn answered by an assistant turn that
already carries partial text and display text. -/
def exampleModelHA : SimpleChatModel :=
  { modelID := "model"
    sessionID := "sess"
    messages := [{ speaker := Speaker.human, text := some "hi" },
      { speaker := Speaker.assistant, text := some "partial", displayText := some "shown" }] }

/-! ## Claim C1 -/

/-- C1 (amended): on every non-empty transcript satisfying the pairing
invariant I1/I2, `addErrorAsBotMessage` succeeds (the operation is total —
it throws on no input), preserves I1/I2, and leaves the transcript with a
final assistant turn whose `error` field is the normalized payload derived
from the given failure.  The empty transcript is excluded: see the
counterexample, where the call also succeeds but I2 is violated. -/
theorem claim1_addErrorAsBotMessage_recovery (errorToChatError : JSError → ChatError)
    (m : SimpleChatModel) (e : JSError) (hne : m.messages ≠ [])
    (hinv : pairingInv m.messages) :
    pairingInv (SimpleChatModel.addErrorAsBotMessage errorToChatError m e).messages ∧
    ∃ last,
      (SimpleChatModel.addErrorAsBotMessage errorToChatError m e).messages.getLast? = some last ∧
      last.speaker = Speaker.assistant ∧
      last.error = some (errorToChatError e) := by
  rcases hgl : m.messages.getLast? with - | lastMessage
  · exact absurd (List.getLast?_eq_none_iff.mp hgl) hne
  · have hsp := pairingInv_getLast _ _ hgl hinv
    have hlen : 0 < m.messages.length := List.length_pos.mpr hne
    unfold SimpleChatModel.addErrorAsBotMessage
    rw [hgl]
    simp only []
    by_cases hA : lastMessage.speaker = Speaker.assistant
    · rw [if_pos hA]
      constructor
      · apply pairingInv_popPush _ _ hne hinv
        show Speaker.assistant = expectedSpeakerAt (m.messages.length - 1)
        rw [← hsp, hA]
      · exact ⟨_, List.getLast?_concat _, rfl, rfl⟩
    · rw [if_neg hA]
      have hH : lastMessage.speaker = Speaker.human := by
        rcases hx : lastMessage.speaker
        · rfl
        · exact absurd hx hA
      have hpar : (m.messages.length - 1) % 2 = 0 :=
        (expectedSpeakerAt_eq_human _).mp (by rw [← hsp, hH])
      constructor
      · apply pairingInv_push _ _ hinv
        show Speaker.assistant = expectedSpeakerAt m.messages.length
        symm
        exact (expectedSpeakerAt_eq_assistant _).mpr (by omega)
      · exact ⟨_, List.getLast?_concat _, rfl, rfl⟩

/-- Closed instance of C1: recovery after a single human turn. -/
theorem claim1_witness :
    pairingInv (SimpleChatModel.addErrorAsBotMessage (fun e => e) exampleModelH "boom").messages ∧
    ∃ last,
      (SimpleChatModel.addErrorAsBotMessage (fun e => e) exampleModelH "boom").messages.getLast? =
        some last ∧
      last.speaker = Speaker.assistant ∧
      last.error = some "boom" :=
  claim1_addErrorAsBotMessage_recovery (fun e => e) exampleModelH "boom" (by decide) (by decide)

/-- C1 counterexample: on the empty transcript `addErrorAsBotMessage`
succeeds but leaves a single assistant turn at index 0, so the transcript
does not satisfy the pairing invariant (index 0 should be human). -/
theorem claim1_counterexample :
    ¬ pairingInv
      (SimpleChatModel.addErrorAsBotMessage (fun e => e) exampleModelEmpty "boom").messages := by
  decide

/-! ## Claim C2 -/

/-- C2 (amended): for every sequence of `addHumanMessage`/`addBotMessage`
calls on an initially empty transcript in which no call raises and whose
first call (the only call that can see the empty transcript) is an
`addHumanMessage` call, the resulting message sequence is human at every
even index and assistant at every odd index.  Without the first-call
restriction the property fails: see the counterexample. -/
theorem claim2_alternation (mid sid : String) (ops : List ChatOp) (m2 : SimpleChatModel)
    (hrun : runOps { modelID := mid, sessionID := sid } ops = .ok m2)
    (hfirst : ∀ op ∈ ops.head?, isHumanOp op = true) :
    pairingInv m2.messages := by
  cases ops with
  | nil =>
    unfold runOps at hrun
    injection hrun with h2
    subst h2
    intro i hi
    simp at hi
  | cons op ops =>
    have hop : isHumanOp op = true := hfirst op (by simp)
    cases op with
    | bot text displayText => simp [isHumanOp] at hop
    | human text =>
      unfold runOps at hrun
      have happ : applyOp { modelID := mid, sessionID := sid } (ChatOp.human text) =
          .ok { modelID := mid
                sessionID := sid
                messages := [{ speaker := Speaker.human, text := text }] } := rfl
      rw [happ] at hrun
      simp only [] at hrun
      exact (runOps_preserves ops _ _ (pairingInv_singleton _ rfl) (by simp) hrun).1

/-- Closed instance of C2: the sequence `[addHumanMessage {text:"hi"}]`. -/
theorem claim2_witness :
    pairingInv ({ modelID := "model"
                  sessionID := "sess"
                  messages := [{ speaker := Speaker.human, text := some "hi" }] } :
        SimpleChatModel).messages :=
  claim2_alternation "model" "sess" [ChatOp.human (some "hi")] _ rfl
    (by
      intro op h
      simp only [List.head?_cons, Option.mem_def, Option.some.injEq] at h
      subst h
      rfl)

/-- C2 counterexample: the sequence `[addBotMessage {text:"hello"}]` on the
empty transcript raises nothing, yet the resulting message sequence has an
assistant turn at index 0. -/
theorem claim2_counterexample :
    ∃ m2, runOps { modelID := "model", sessionID := "sess" }
        [ChatOp.bot (some "hello") none] = .ok m2 ∧
      ¬ pairingInv m2.messages := by
  refine ⟨_, rfl, ?_⟩
  decide

/-! ## Claim C3 -/

/-- C3: on a transcript whose last turn is human, `addErrorAsBotMessage(e)`
followed by `addBotMessage({text:"answer"})` leaves exactly one assistant
turn appended after the original messages, with text `"answer"` and the
error carried over from `e`; the empty placeholder assistant turn is
removed, not kept alongside the answer. -/
theorem claim3_error_then_answer (errorToChatError : JSError → ChatError)
    (m : SimpleChatModel) (e : JSError) (last : ChatMessage)
    (hgl : m.messages.getLast? = some last) (hs : last.speaker = Speaker.human) :
    ∃ m2,
      (SimpleChatModel.addErrorAsBotMessage errorToChatError m e).addBotMessage
        (some "answer") none = .ok m2 ∧
      m2.messages = m.messages ++
        [{ speaker := Speaker.assistant
           text := some "answer"
           displayText := none
           contextFiles := none
           error := some (errorToChatError e) }] := by
  have step1 : (SimpleChatModel.addErrorAsBotMessage errorToChatError m e).messages =
      m.messages ++ [{ speaker := Speaker.assistant, error := some (errorToChatError e) }] := by
    unfold SimpleChatModel.addErrorAsBotMessage
    rw [hgl]
    simp only []
    rw [if_neg (by simp [hs])]
  have hgl1 : (SimpleChatModel.addErrorAsBotMessage errorToChatError m e).messages.getLast? =
      some { speaker := Speaker.assistant, error := some (errorToChatError e) } := by
    rw [step1]
    exact List.getLast?_concat _
  unfold SimpleChatModel.addBotMessage
  rw [hgl1]
  simp only []
  rw [if_pos trivial, if_neg (by simp [strTruthy])]
  refine ⟨_, rfl, ?_⟩
  simp only []
  rw [step1, List.dropLast_concat]

/-- Closed instance of C3 on the single-human-turn transcript. -/
theorem claim3_witness :
    ∃ m2,
      (SimpleChatModel.addErrorAsBotMessage (fun e => e) exampleModelH "boom").addBotMessage
        (some "answer") none = .ok m2 ∧
      m2.messages = exampleModelH.messages ++
        [{ speaker := Speaker.assistant
           text := some "answer"
           displayText := none
           contextFiles := none
           error := some "boom" }] :=
  claim3_error_then_answer (fun e => e) exampleModelH "boom"
    { speaker := Speaker.human, text := some "hi" } rfl rfl

/-! ## Claim C9 -/

/-- C9: when `addErrorAsBotMessage` is called while the last turn is an
assistant turn, the replacement turn is the popped turn with only `speaker`
and `error` overwritten — every other field (`text`, `displayText`,
`contextFiles`) is kept unchanged. -/
theorem claim9_addError_preserves_fields (errorToChatError : JSError → ChatError)
    (m : SimpleChatModel) (e : JSError) (last : ChatMessage)
    (hgl : m.messages.getLast? = some last) (hs : last.speaker = Speaker.assistant) :
    (SimpleChatModel.addErrorAsBotMessage errorToChatError m e).messages =
      m.messages.dropLast ++
        [{ last with speaker := Speaker.assistant, error := some (errorToChatError e) }] := by
  unfold SimpleChatModel.addErrorAsBotMessage
  rw [hgl]
  simp only []
  rw [if_pos hs]

/-- Closed instance of C9: recovery on top of an assistant turn with
partial text and display text preserves both. -/
theorem claim9_witness :
    (SimpleChatModel.addErrorAsBotMessage (fun e => e) exampleModelHA "boom").messages =
      exampleModelHA.messages.dropLast ++
        [{ speaker := Speaker.assistant
           text := some "partial"
           displayText := some "shown"
           contextFiles := none
           error := some "boom" }] :=
  claim9_addError_preserves_fields (fun e => e) exampleModelHA "boom"
    { speaker := Speaker.assistant, text := some "partial", displayText := some "shown" } rfl rfl

/-! ## Claim C4 -/

/-- C4 (amended): `getLastSpeakerMessageIndex(speaker)` returns the highest
index whose turn has that speaker, and returns the number `-1` — not
`undefined` — when no turn with that speaker exists. -/
theorem claim4_getLastSpeakerMessageIndex (m : SimpleChatModel) (s : Speaker) :
    ((∀ k, k < m.messages.length → speakerAt m.messages k ≠ some s) →
        m.getLastSpeakerMessageIndex s = some (-1)) ∧
    (∀ j : Nat, speakerAt m.messages j = some s →
        (∀ k, k < m.messages.length → j < k → speakerAt m.messages k ≠ some s) →
        m.getLastSpeakerMessageIndex s = some (j : Int)) := by
  constructor
  · intro hnone
    unfold SimpleChatModel.getLastSpeakerMessageIndex
    congr 1
    rw [findLastIndexJS_eq_neg_one_iff]
    intro x hx
    obtain ⟨k, hk⟩ := List.mem_iff_getElem?.mp hx
    have hklt : k < m.messages.length := (List.getElem?_eq_some_iff.mp hk).1
    have hne := hnone k hklt
    unfold speakerAt at hne
    rw [hk] at hne
    simp only [Option.map_some'] at hne
    simp only [beq_eq_false_iff_ne, ne_eq]
    intro hcon
    exact hne (by rw [hcon])
  · intro j hj hmax
    unfold SimpleChatModel.getLastSpeakerMessageIndex
    congr 1
    apply findLastIndexJS_spec
    · unfold speakerAt at hj
      rcases hx : m.messages[j]? with - | x
      · rw [hx] at hj
        simp at hj
      · rw [hx] at hj
        simp only [Option.map_some', Option.some.injEq] at hj
        exact ⟨x, rfl, by simp [hj]⟩
    · intro k hk x hkx
      have hklt : k < m.messages.length := (List.getElem?_eq_some_iff.mp hkx).1
      have hne := hmax k hklt hk
      unfold speakerAt at hne
      rw [hkx] at hne
      simp only [Option.map_some'] at hne
      simp only [beq_eq_false_iff_ne, ne_eq]
      intro hcon
      exact hne (by rw [hcon])

/-- Closed instance of C4: the highest assistant index of the two-turn
transcript is 1. -/
theorem claim4_witness :
    SimpleChatModel.getLastSpeakerMessageIndex exampleModelHA Speaker.assistant = some 1 :=
  (claim4_getLastSpeakerMessageIndex exampleModelHA Speaker.assistant).2 1 (by decide)
    (by decide)

/-- C4 counterexample: on the empty transcript the call returns the number
`-1`, not `undefined` as the claim states. -/
theorem claim4_counterexample :
    SimpleChatModel.getLastSpeakerMessageIndex exampleModelEmpty Speaker.human = some (-1) ∧
    SimpleChatModel.getLastSpeakerMessageIndex exampleModelEmpty Speaker.human ≠ none := by
  constructor
  · rfl
  · simp [SimpleChatModel.getLastSpeakerMessageIndex]

/-! ## Claim C5 -/

/-- C5: on a non-empty transcript whose last turn is human,
`setLastMessageContext(items)` succeeds and replaces the last turn's
`contextFiles` with exactly the items not classified as ignored, in their
original relative order (a filter of `items`), and calling it again with
the same items returns the very same state (idempotence). -/
theorem claim5_setLastMessageContext (isCodyIgnoredFile : String → Bool)
    (m : SimpleChatModel) (items : List ContextItem) (last : ChatMessage)
    (hgl : m.messages.getLast? = some last) (hs : last.speaker = Speaker.human) :
    ∃ m2,
      m.setLastMessageContext isCodyIgnoredFile items = .ok m2 ∧
      m2.messages = m.messages.dropLast ++
        [{ last with contextFiles := some (items.filter fun c => !isCodyIgnoredFile c.uri) }] ∧
      m2.setLastMessageContext isCodyIgnoredFile items = .ok m2 := by
  have key : m.setLastMessageContext isCodyIgnoredFile items =
      .ok { m with messages := m.messages.dropLast ++
        [{ last with
            contextFiles := some (items.filter fun c => !isCodyIgnoredFile c.uri) }] } := by
    unfold SimpleChatModel.setLastMessageContext
    rw [hgl]
    simp only []
    rw [if_neg (by simp [hs])]
  refine ⟨_, key, rfl, ?_⟩
  unfold SimpleChatModel.setLastMessageContext
  simp only []
  rw [List.getLast?_concat]
  simp only []
  rw [if_neg (by simp [hs])]
  rw [List.dropLast_concat]

/-- Closed instance of C5: two items, the second of which is ignored. -/
theorem claim5_witness :
    ∃ m2,
      SimpleChatModel.setLastMessageContext (fun u => u == "b") exampleModelH
        [{ uri := "a" }, { uri := "b" }] = .ok m2 ∧
      m2.messages = [{ speaker := Speaker.human
                       text := some "hi"
                       contextFiles := some [{ uri := "a" }] }] ∧
      m2.setLastMessageContext (fun u => u == "b") [{ uri := "a" }, { uri := "b" }] =
        .ok m2 := by
  obtain ⟨m2, h1, h2, h3⟩ := claim5_setLastMessageContext (fun u => u == "b") exampleModelH
    [{ uri := "a" }, { uri := "b" }] { speaker := Speaker.human, text := some "hi" } rfl rfl
  refine ⟨m2, h1, ?_, h3⟩
  rw [h2]
  rfl

/-! ## Claim C6 -/

/-- C6: `removeMessagesFromIndex(index, expectedSpeaker)` raises on the
empty transcript, raises when the turn at `index` does not have speaker
`expectedSpeaker` (including when no turn exists at `index`), and on
success discards exactly the turns from `index` onward.  The
`Except`-valued embedding also expresses atomicity: on the error outcomes
no new state is produced, matching the source where both throws precede
the `splice`. -/
theorem claim6_removeMessagesFromIndex (m : SimpleChatModel) (index : Nat)
    (expectedSpeaker : Speaker) :
    (m.messages = [] →
        m.removeMessagesFromIndex index expectedSpeaker =
          .error "SimpleChatModel.removeMessagesFromIndex: not message to remove") ∧
    (m.messages ≠ [] →
        (m.messages[index]?).map ChatMessage.speaker ≠ some expectedSpeaker →
        ∃ msg, m.removeMessagesFromIndex index expectedSpeaker = .error msg) ∧
    (m.messages ≠ [] →
        (m.messages[index]?).map ChatMessage.speaker = some expectedSpeaker →
        m.removeMessagesFromIndex index expectedSpeaker =
          .ok { m with messages := m.messages.take index }) := by
  unfold SimpleChatModel.removeMessagesFromIndex SimpleChatModel.isEmpty
  refine ⟨?_, ?_, ?_⟩
  · intro h
    rw [h]
    simp
  · intro hne hmis
    rw [if_neg (by simp [hne])]
    simp only []
    rw [if_pos hmis]
    exact ⟨_, rfl⟩
  · intro hne hok
    rw [if_neg (by simp [hne])]
    simp only []
    rw [if_neg (by simp [hok])]

/-- Closed instance of C6: all three outcomes on concrete transcripts. -/
theorem claim6_witness :
    SimpleChatModel.removeMessagesFromIndex exampleModelEmpty 0 Speaker.human =
      .error "SimpleChatModel.removeMessagesFromIndex: not message to remove" ∧
    (∃ msg, SimpleChatModel.removeMessagesFromIndex exampleModelHA 1 Speaker.human =
      .error msg) ∧
    SimpleChatModel.removeMessagesFromIndex exampleModelHA 1 Speaker.assistant =
      .ok { exampleModelHA with messages := exampleModelHA.messages.take 1 } :=
  ⟨(claim6_removeMessagesFromIndex exampleModelEmpty 0 Speaker.human).1 rfl,
    (claim6_removeMessagesFromIndex exampleModelHA 1 Speaker.human).2.1 (by decide) (by decide),
    (claim6_removeMessagesFromIndex exampleModelHA 1 Speaker.assistant).2.2 (by decide)
      (by decide)⟩

/-! ## Claim C7 -/

/-- C7 (amended): `getChatTitle()` returns the custom chat title whenever it
has been set to a non-empty string, regardless of message content;
otherwise, when the most recent human turn resolves to a non-empty display
text `t`, it returns the externally derived panel title of `t`; and when no
non-empty custom title is set and no human turn with non-empty derivable
display text exists, it returns the literal string "New Chat".  A custom
title set to the empty string is ignored by `getChatTitle` (the truthiness
check in the source): see the counterexample. -/
theorem claim7_getChatTitle (createDisplayTextWithFileLinks : String → List ContextItem → String)
    (reformatBotMessageForChat : String → String → String) (m : SimpleChatModel) :
    (∀ t, m.customChatTitle = some t → t ≠ "" →
        m.getChatTitle createDisplayTextWithFileLinks reformatBotMessageForChat = t) ∧
    (strTruthy m.customChatTitle = false →
      ∀ t, (m.getLastHumanMessage).bind
          (getDisplayText createDisplayTextWithFileLinks reformatBotMessageForChat) = some t →
        t ≠ "" →
        m.getChatTitle createDisplayTextWithFileLinks reformatBotMessageForChat =
          getChatPanelTitle (some t) true) ∧
    (strTruthy m.customChatTitle = false →
      strTruthy ((m.getLastHumanMessage).bind
        (getDisplayText createDisplayTextWithFileLinks reformatBotMessageForChat)) = false →
      m.getChatTitle createDisplayTextWithFileLinks reformatBotMessageForChat = "New Chat") := by
  refine ⟨?_, ?_, ?_⟩
  · intro t ht hne
    unfold SimpleChatModel.getChatTitle
    rw [if_pos (by rw [ht]; simpa [strTruthy] using hne)]
    rw [ht]
    rfl
  · intro hcf t htext hne
    unfold SimpleChatModel.getChatTitle
    rw [if_neg (by simp [hcf])]
    simp only []
    rw [htext]
    rw [if_pos (by simpa [strTruthy] using hne)]
  · intro hcf htext
    unfold SimpleChatModel.getChatTitle
    rw [if_neg (by simp [hcf])]
    simp only []
    rw [if_neg (by simp [htext])]

/-- Closed instance of C7: all three branches on concrete transcripts. -/
theorem claim7_witness :
    SimpleChatModel.getChatTitle (fun t _ => t) (fun t _ => t)
      { exampleModelH with customChatTitle := some "Foo" } = "Foo" ∧
    SimpleChatModel.getChatTitle (fun t _ => t) (fun t _ => t) exampleModelH =
      getChatPanelTitle (some "hi") true ∧
    SimpleChatModel.getChatTitle (fun t _ => t) (fun t _ => t) exampleModelEmpty =
      "New Chat" :=
  ⟨(claim7_getChatTitle (fun t _ => t) (fun t _ => t)
      { exampleModelH with customChatTitle := some "Foo" }).1 "Foo" rfl (by decide),
    (claim7_getChatTitle (fun t _ => t) (fun t _ => t) exampleModelH).2.1 rfl "hi" rfl
      (by decide),
    (claim7_getChatTitle (fun t _ => t) (fun t _ => t) exampleModelEmpty).2.2 rfl rfl⟩

/-- C7 counterexample: after `setCustomChatTitle("")` the custom title is
set (it round-trips through `getCustomChatTitle`), yet `getChatTitle`
returns "New Chat" instead of the set title. -/
theorem claim7_counterexample :
    (SimpleChatModel.setCustomChatTitle exampleModelEmpty "").getCustomChatTitle = some "" ∧
    SimpleChatModel.getChatTitle (fun t _ => t) (fun t _ => t)
      (SimpleChatModel.setCustomChatTitle exampleModelEmpty "") = "New Chat" ∧
    "New Chat" ≠ "" := by
  exact ⟨rfl, rfl, by decide⟩

/-! ## Claim C8 -/

/-- C8: starting from the empty transcript, `addHumanMessage({text:"hi"})`,
`addBotMessage({text:"hello"})`, `addHumanMessage({text:"bye"})` and then
serializing yields exactly two interactions: the first has both its human
and assistant messages populated, the second has human text `"bye"` and a
`null` assistant message (odd-length transcript). -/
theorem claim8_serialization_scenario
    (createDisplayTextWithFileLinks : String → List ContextItem → String)
    (reformatBotMessageForChat : String → String → String) (mid sid : String) :
    ∃ t : SerializedChatTranscript,
      (do
        let m1 ← SimpleChatModel.addHumanMessage { modelID := mid, sessionID := sid }
          (some "hi")
        let m2 ← m1.addBotMessage (some "hello") none
        let m3 ← m2.addHumanMessage (some "bye")
        m3.toSerializedChatTranscript createDisplayTextWithFileLinks
          reformatBotMessageForChat) = .ok t ∧
      ∃ i1 i2, t.interactions = [i1, i2] ∧
        i1.humanMessage.text = some "hi" ∧
        (∃ a, i1.assistantMessage = some a ∧ a.text = some "hello") ∧
        i2.humanMessage.text = some "bye" ∧
        i2.assistantMessage = none := by
  refine ⟨_, rfl, ?_⟩
  exact ⟨_, _, rfl, rfl, ⟨_, rfl, rfl⟩, rfl, rfl⟩

/-! ## Claim C10 -/

/-- C10: `setSelectedRepos` stores references to fresh copies, disjoint
from every previously allocated reference (in particular from the caller's
own repo objects); for any later heap in which the stored copies are
untouched — no matter how the caller mutated its own objects —
`getSelectedRepos` returns objects whose field values equal the passed
repos' values at the time of the `set` call; `undefined` is accepted and
round-trips as `undefined`. -/
theorem claim10_selectedRepos_isolation (h : RepoHeap) (rs : List Nat)
    (hwf : ∀ r ∈ rs, r < h.next) :
    (∃ stored, (setSelectedReposRef h (some rs)).2 = some stored ∧
      (∀ r ∈ stored, h.next ≤ r) ∧
      (∀ h2 : RepoHeap, (setSelectedReposRef h (some rs)).1.next ≤ h2.next →
        (∀ r ∈ stored, h2.data r = (setSelectedReposRef h (some rs)).1.data r) →
        ∃ out, (getSelectedReposRef h2 (some stored)).2 = some out ∧
          readRepos (getSelectedReposRef h2 (some stored)).1 out = readRepos h rs)) ∧
    (setSelectedReposRef h none).2 = none ∧
    (getSelectedReposRef h none).2 = none := by
  refine ⟨?_, rfl, rfl⟩
  refine ⟨(copyRepos h rs).2, rfl, ?_, ?_⟩
  · intro r hr
    exact (copyRepos_fresh rs h r hr).1
  · intro h2 hnext hagree
    refine ⟨(copyRepos h2 (copyRepos h rs).2).2, rfl, ?_⟩
    have hsetnext : (setSelectedReposRef h (some rs)).1.next = h.next + rs.length := by
      show (copyRepos h rs).1.next = h.next + rs.length
      exact copyRepos_next rs h
    have hstored_lt : ∀ r ∈ (copyRepos h rs).2, r < h2.next := by
      intro r hr
      have hb := (copyRepos_fresh rs h r hr).2
      rw [hsetnext] at hnext
      omega
    calc readRepos (getSelectedReposRef h2 (some (copyRepos h rs).2)).1
          (copyRepos h2 (copyRepos h rs).2).2
        = readRepos h2 (copyRepos h rs).2 := copyRepos_read _ _ hstored_lt
      _ = readRepos (copyRepos h rs).1 (copyRepos h rs).2 := by
          unfold readRepos
          apply List.map_congr_left
          intro x hx
          exact hagree x hx
      _ = readRepos h rs := copyRepos_read rs h hwf

/-- A concrete heap with two allocated repo objects. -/
def exampleHeap : RepoHeap :=
  ⟨fun _ => { name := "repo", id := "r0" }, 2⟩

/-- Closed instance of C10 on a heap with two caller-owned repo objects. -/
theorem claim10_witness :
    (∃ stored, (setSelectedReposRef exampleHeap (some [0, 1])).2 = some stored ∧
      (∀ r ∈ stored, exampleHeap.next ≤ r) ∧
      (∀ h2 : RepoHeap, (setSelectedReposRef exampleHeap (some [0, 1])).1.next ≤ h2.next →
        (∀ r ∈ stored, h2.data r = (setSelectedReposRef exampleHeap (some [0, 1])).1.data r) →
        ∃ out, (getSelectedReposRef h2 (some stored)).2 = some out ∧
          readRepos (getSelectedReposRef h2 (some stored)).1 out =
            readRepos exampleHeap [0, 1])) ∧
    (setSelectedReposRef exampleHeap none).2 = none ∧
    (getSelectedReposRef exampleHeap none).2 = none :=
  claim10_selectedRepos_isolation exampleHeap [0, 1] (by decide)
